import Mathlib

/-!
Verification of the mollusk-helper transaction layer.

Shallow embedding of the core of the repository:
- `src/account_store.rs` (`InMemoryAccountStore` with snapshot/restore),
- `src/transaction.rs` (`TransactionResult`, `TransactionBuilder::execute`,
  `execute_allow_failures`, `dry_run`),
- `src/error.rs` (`MolluskHelperError`),
- `src/context.rs` (`MolluskContextHelper::process_instruction`).

The external mollusk-svm execution engine is modelled as a function
parameter `engine : Ix → Store → InstructionResult × Store` (it consumes one
instruction, mutates the account store in place, and returns a structured
result).  Opaque external payload types (`ProgramError`, `InstructionError`,
instructions themselves) are modelled abstractly: errors as one-field
wrappers around `Nat`, instructions as a type parameter.  The `u64` metric
counters are modelled as `Nat` with wrap-around addition modulo `2 ^ 64`.
-/

/-- Addresses (solana `Address` / `Pubkey`, a fixed 32-byte id) modelled
abstractly as naturals. -/
abbrev Address := Nat

/-- `solana_account::Account`: lamports, data, owner, executable, rent_epoch. -/
structure Account where
  lamports : Nat
  data : List Nat
  owner : Address
  executable : Bool
  rent_epoch : Nat
deriving Repr, DecidableEq

/-- Opaque external `solana_program_error::ProgramError` payload. -/
structure ProgramError where
  code : Nat
deriving Repr, DecidableEq

/-- Opaque external `solana_instruction::error::InstructionError` payload. -/
structure InstructionError where
  code : Nat
deriving Repr, DecidableEq

/-- `mollusk_svm::result::ProgramResult`: success, a typed program failure,
or an unclassified engine error. -/
inductive ProgramResult where
  | Success : ProgramResult
  | Failure : ProgramError → ProgramResult
  | UnknownError : InstructionError → ProgramResult
deriving Repr, DecidableEq

/-- `ProgramResult::is_ok`: true exactly on `Success`. -/
def ProgramResult.is_ok : ProgramResult → Bool
  | .Success => true
  | .Failure _ => false
  | .UnknownError _ => false

/-- `ProgramResult::is_err`: negation of `is_ok`. -/
def ProgramResult.is_err (r : ProgramResult) : Bool :=
  !r.is_ok

instance {ε α : Type} [DecidableEq ε] [DecidableEq α] : DecidableEq (Except ε α) := fun a b =>
  match a, b with
  | Except.error e1, Except.error e2 =>
    if h : e1 = e2 then Decidable.isTrue (congrArg Except.error h)
    else Decidable.isFalse (fun hc => h (Except.error.inj hc))
  | Except.error _, Except.ok _ => Decidable.isFalse (fun hc => Except.noConfusion hc)
  | Except.ok _, Except.error _ => Decidable.isFalse (fun hc => Except.noConfusion hc)
  | Except.ok a1, Except.ok a2 =>
    if h : a1 = a2 then Decidable.isTrue (congrArg Except.ok h)
    else Decidable.isFalse (fun hc => h (Except.ok.inj hc))

/-- The fields of `mollusk_svm::result::InstructionResult` that the
transaction layer reads: `program_result`, `raw_result : Result<(),
InstructionError>`, and the two `u64` metrics. -/
structure InstructionResult where
  program_result : ProgramResult
  raw_result : Except InstructionError Unit
  compute_units_consumed : Nat
  execution_time : Nat
deriving Repr, DecidableEq

/-- `u64` wrap-around addition (release-mode Rust `+` on `u64`). -/
def u64add (a b : Nat) : Nat :=
  (a + b) % 2 ^ 64

/-- Left fold of `u64add` over a list, starting at `0`: the summed metric. -/
def u64sum (l : List Nat) : Nat :=
  l.foldl u64add 0

/-- `src/account_store.rs`: `InMemoryAccountStore`, a mapping from address to
account.  The `HashMap` is modelled as an association list queried by first
match. -/
structure InMemoryAccountStore where
  accounts : List (Address × Account)
deriving Repr, DecidableEq

/-- `HashMap::insert`: overwrite the binding for `k` if present, else append. -/
def insertAccount : List (Address × Account) → Address → Account → List (Address × Account)
  | [], k, v => [(k, v)]
  | (k', v') :: rest, k, v =>
    if k' = k then (k, v) :: rest else (k', v') :: insertAccount rest k v

/-- `InMemoryAccountStore::add_account`. -/
def InMemoryAccountStore.add_account (s : InMemoryAccountStore) (address : Address)
    (account : Account) : InMemoryAccountStore :=
  ⟨insertAccount s.accounts address account⟩

/-- `InMemoryAccountStore::get_balance`: `self.accounts.get(address).map(|a| a.lamports)`. -/
def InMemoryAccountStore.get_balance (s : InMemoryAccountStore) (address : Address) :
    Option Nat :=
  (s.accounts.lookup address).map (fun a => a.lamports)

/-- `InMemoryAccountStore::snapshot`: a full copy of the mapping. -/
def InMemoryAccountStore.snapshot (s : InMemoryAccountStore) :
    List (Address × Account) :=
  s.accounts

/-- `InMemoryAccountStore::restore`: `self.accounts = snapshot` (the previous
contents of the live store are discarded wholesale). -/
def InMemoryAccountStore.restore (_s : InMemoryAccountStore)
    (snap : List (Address × Account)) : InMemoryAccountStore :=
  ⟨snap⟩

/-- `AccountStore::get_account` for `InMemoryAccountStore`:
`self.accounts.get(address).cloned()`. -/
def InMemoryAccountStore.get_account (s : InMemoryAccountStore) (address : Address) :
    Option Account :=
  s.accounts.lookup address

/-- `AccountStore::store_account` for `InMemoryAccountStore`. -/
def InMemoryAccountStore.store_account (s : InMemoryAccountStore) (address : Address)
    (account : Account) : InMemoryAccountStore :=
  ⟨insertAccount s.accounts address account⟩

/-- `src/error.rs`: `MolluskHelperError`. -/
inductive MolluskHelperError where
  | InstructionFailed : InstructionError → MolluskHelperError
  | ProgramError : ProgramError → MolluskHelperError
  | TransactionFailed : Nat → InstructionError → MolluskHelperError
  | AccountNotFound : String → MolluskHelperError
  | KeypairNotFound : String → MolluskHelperError
  | LockError : MolluskHelperError
deriving Repr, DecidableEq

/-- The external execution engine boundary
(`MolluskContext::process_instruction`): one instruction plus the current
store, returning the instruction result and the mutated store. -/
abbrev Engine (Ix : Type) :=
  Ix → InMemoryAccountStore → InstructionResult × InMemoryAccountStore

/-- `MolluskContextHelper::process_instruction`: run the engine and classify
the outcome (`Success ↦ Ok`, `Failure(e) ↦ Err(ProgramError(e))`,
`UnknownError(e) ↦ Err(InstructionFailed(e))`). -/
def process_instruction {Ix : Type} (engine : Engine Ix) (ix : Ix)
    (store : InMemoryAccountStore) :
    Except MolluskHelperError InstructionResult × InMemoryAccountStore :=
  match (engine ix store).1.program_result with
  | .Success => (Except.ok (engine ix store).1, (engine ix store).2)
  | .Failure e => (Except.error (MolluskHelperError.ProgramError e), (engine ix store).2)
  | .UnknownError e =>
    (Except.error (MolluskHelperError.InstructionFailed e), (engine ix store).2)

/-- `src/transaction.rs`: `TransactionResult`. -/
structure TransactionResult where
  instruction_results : List InstructionResult
  total_compute_units : Nat
  total_execution_time : Nat
deriving Repr, DecidableEq

/-- `TransactionResult::is_success`: `.iter().all(|r| r.program_result.is_ok())`. -/
def TransactionResult.is_success (t : TransactionResult) : Bool :=
  t.instruction_results.all (fun r => r.program_result.is_ok)

/-- `Iterator::position`: zero-based index of the first element satisfying
the predicate. -/
def listPosition {α : Type} (p : α → Bool) : List α → Option Nat
  | [] => none
  | a :: rest => if p a then some 0 else (listPosition p rest).map (fun n => n + 1)

/-- `TransactionResult::failed_at`: `.iter().position(|r| r.program_result.is_err())`. -/
def TransactionResult.failed_at (t : TransactionResult) : Option Nat :=
  listPosition (fun r => r.program_result.is_err) t.instruction_results

/-- `TransactionResult::last_result`: `.last()`. -/
def TransactionResult.last_result (t : TransactionResult) : Option InstructionResult :=
  t.instruction_results.getLast?

/-- The loop of `TransactionBuilder::execute`, state-passing: accumulated
results, metric totals, current index and store.  `none` models the
`unreachable!()` panic (a failed `program_result` whose `raw_result` is
`Ok`).  On failure the snapshot is restored and a `TransactionFailed` error
is returned. -/
def executeLoop {Ix : Type} (engine : Engine Ix) (snap : List (Address × Account)) :
    List Ix → Nat → List InstructionResult → Nat → Nat → InMemoryAccountStore →
    Option (Except MolluskHelperError TransactionResult × InMemoryAccountStore)
  | [], _, acc, cu, et, store => some (Except.ok ⟨acc, cu, et⟩, store)
  | ix :: rest, index, acc, cu, et, store =>
    if (engine ix store).1.program_result.is_err then
      match (engine ix store).1.raw_result with
      | Except.error e =>
        some (Except.error (MolluskHelperError.TransactionFailed index e),
              ((engine ix store).2).restore snap)
      | Except.ok _ => none
    else
      executeLoop engine snap rest (index + 1) (acc ++ [(engine ix store).1])
        (u64add cu (engine ix store).1.compute_units_consumed)
        (u64add et (engine ix store).1.execution_time)
        (engine ix store).2

/-- `TransactionBuilder::execute` (strict mode). -/
def execute {Ix : Type} (engine : Engine Ix) (ixs : List Ix)
    (store : InMemoryAccountStore) :
    Option (Except MolluskHelperError TransactionResult × InMemoryAccountStore) :=
  if ixs.isEmpty then some (Except.ok ⟨[], 0, 0⟩, store)
  else executeLoop engine store.snapshot ixs 0 [] 0 0 store

/-- The loop of `TransactionBuilder::execute_allow_failures`: runs every
instruction, tracking whether any failed. -/
def allowFailuresLoop {Ix : Type} (engine : Engine Ix) :
    List Ix → List InstructionResult → Nat → Nat → Bool → InMemoryAccountStore →
    List InstructionResult × Nat × Nat × Bool × InMemoryAccountStore
  | [], acc, cu, et, anyFailed, store => (acc, cu, et, anyFailed, store)
  | ix :: rest, acc, cu, et, anyFailed, store =>
    allowFailuresLoop engine rest (acc ++ [(engine ix store).1])
      (u64add cu (engine ix store).1.compute_units_consumed)
      (u64add et (engine ix store).1.execution_time)
      (anyFailed || (engine ix store).1.program_result.is_err)
      (engine ix store).2

/-- `TransactionBuilder::execute_allow_failures` (tolerant mode). -/
def execute_allow_failures {Ix : Type} (engine : Engine Ix) (ixs : List Ix)
    (store : InMemoryAccountStore) : TransactionResult × InMemoryAccountStore :=
  if ixs.isEmpty then (⟨[], 0, 0⟩, store)
  else
    (⟨(allowFailuresLoop engine ixs [] 0 0 false store).1,
      (allowFailuresLoop engine ixs [] 0 0 false store).2.1,
      (allowFailuresLoop engine ixs [] 0 0 false store).2.2.1⟩,
     if (allowFailuresLoop engine ixs [] 0 0 false store).2.2.2.1 then
       ((allowFailuresLoop engine ixs [] 0 0 false store).2.2.2.2).restore store.snapshot
     else (allowFailuresLoop engine ixs [] 0 0 false store).2.2.2.2)

/-- The loop of `TransactionBuilder::dry_run`: push each result, stop after
the first failure. -/
def dryRunLoop {Ix : Type} (engine : Engine Ix) :
    List Ix → List InstructionResult → Nat → Nat → InMemoryAccountStore →
    List InstructionResult × Nat × Nat × InMemoryAccountStore
  | [], acc, cu, et, store => (acc, cu, et, store)
  | ix :: rest, acc, cu, et, store =>
    if (engine ix store).1.program_result.is_err then
      (acc ++ [(engine ix store).1],
       u64add cu (engine ix store).1.compute_units_consumed,
       u64add et (engine ix store).1.execution_time,
       (engine ix store).2)
    else
      dryRunLoop engine rest (acc ++ [(engine ix store).1])
        (u64add cu (engine ix store).1.compute_units_consumed)
        (u64add et (engine ix store).1.execution_time)
        (engine ix store).2

/-- `TransactionBuilder::dry_run`: always restore the snapshot at the end. -/
def dry_run {Ix : Type} (engine : Engine Ix) (ixs : List Ix)
    (store : InMemoryAccountStore) : TransactionResult × InMemoryAccountStore :=
  if ixs.isEmpty then (⟨[], 0, 0⟩, store)
  else
    (⟨(dryRunLoop engine ixs [] 0 0 store).1,
      (dryRunLoop engine ixs [] 0 0 store).2.1,
      (dryRunLoop engine ixs [] 0 0 store).2.2.1⟩,
     ((dryRunLoop engine ixs [] 0 0 store).2.2.2).restore store.snapshot)

/-- Spec-side observable: the ordered sequence of instruction results when
the engine is applied to each instruction in turn, threading the store. -/
def chainResults {Ix : Type} (engine : Engine Ix) :
    List Ix → InMemoryAccountStore → List InstructionResult
  | [], _ => []
  | ix :: rest, store => (engine ix store).1 :: chainResults engine rest (engine ix store).2

/-- Spec-side observable: the store after running every instruction in
order. -/
def chainStore {Ix : Type} (engine : Engine Ix) :
    List Ix → InMemoryAccountStore → InMemoryAccountStore
  | [], store => store
  | ix :: rest, store => chainStore engine rest (engine ix store).2

/-- Spec-side: prefix of a result sequence up to and including the first
failure. -/
def takeThroughFirstFailure : List InstructionResult → List InstructionResult
  | [] => []
  | r :: rest =>
    if r.program_result.is_err then [r] else r :: takeThroughFirstFailure rest

/-- Adapter invariant (how mollusk populates `InstructionResult`): whenever
`program_result` is an error, `raw_result` is an error as well. -/
def EngineRawConsistent {Ix : Type} (engine : Engine Ix) : Prop :=
  ∀ ix store, ((engine ix store).1.program_result.is_err = true) →
    ∃ e, (engine ix store).1.raw_result = Except.error e

/-! Concrete fixtures used to instantiate the theorems below. -/

/-- A concrete account. -/
def wAccount : Account := ⟨100, [1, 2], 0, false, 0⟩

/-- A concrete store holding one account at address 1. -/
def wStore : InMemoryAccountStore := ⟨[(1, wAccount)]⟩

/-- A successful instruction result with metrics 5 and 7. -/
def wOkRes : InstructionResult := ⟨ProgramResult.Success, Except.ok (), 5, 7⟩

/-- A typed program failure with a consistent raw error. -/
def wErrRes : InstructionResult := ⟨ProgramResult.Failure ⟨3⟩, Except.error ⟨9⟩, 2, 4⟩

/-- An unclassified engine error with a consistent raw error. -/
def wUnkRes : InstructionResult := ⟨ProgramResult.UnknownError ⟨6⟩, Except.error ⟨6⟩, 1, 1⟩

/-- An engine that succeeds on every instruction and writes an account at the
address given by the instruction itself. -/
def wMutEngine : Engine Nat := fun n s => (wOkRes, s.add_account (n + 10) wAccount)

/-- An engine that fails every instruction with a typed program failure. -/
def wFailEngine : Engine Nat := fun _ s => (wErrRes, s.add_account 3 wAccount)

/-- An engine that succeeds on instruction 0 (with a store mutation) and
fails on every other instruction. -/
def wMixEngine : Engine Nat := fun n s =>
  if n = 0 then (wOkRes, s.add_account 2 wAccount) else (wErrRes, s)

/-- An engine that fails every instruction with an unclassified error. -/
def wUnkEngine : Engine Nat := fun _ s => (wUnkRes, s)

/-! General lemmas about the spec-side observables. -/

theorem chainResults_length {Ix : Type} (engine : Engine Ix) :
    ∀ (ixs : List Ix) (store : InMemoryAccountStore),
      (chainResults engine ixs store).length = ixs.length := by
  intro ixs
  induction ixs with
  | nil => intro store; rfl
  | cons ix rest ih => intro store; simp [chainResults, ih]

theorem chainResults_take {Ix : Type} (engine : Engine Ix) :
    ∀ (n : Nat) (ixs : List Ix) (store : InMemoryAccountStore),
      chainResults engine (List.take n ixs) store =
        List.take n (chainResults engine ixs store) := by
  intro n
  induction n with
  | zero => intro ixs store; simp [chainResults]
  | succ m ih =>
    intro ixs store
    cases ixs with
    | nil => simp [chainResults]
    | cons ix rest => simp [chainResults, List.take_succ_cons, ih]

theorem listPosition_lt_length {α : Type} (p : α → Bool) :
    ∀ (l : List α) (k : Nat), listPosition p l = some k → k < l.length := by
  intro l
  induction l with
  | nil => intro k h; simp [listPosition] at h
  | cons a rest ih =>
    intro k h
    by_cases hpa : p a = true
    · simp [listPosition, hpa] at h
      simp [← h]
    · have hpa' : p a = false := by simpa using hpa
      simp [listPosition, hpa'] at h
      obtain ⟨k', hk', rfl⟩ := h
      have := ih k' hk'
      simp
      omega

theorem listPosition_take {α : Type} (p : α → Bool) :
    ∀ (l : List α) (k n : Nat), listPosition p l = some k → k < n →
      listPosition p (List.take n l) = some k := by
  intro l
  induction l with
  | nil => intro k n h _; simp [listPosition] at h
  | cons a rest ih =>
    intro k n h hkn
    cases n with
    | zero => omega
    | succ m =>
      by_cases hpa : p a = true
      · simp [listPosition, hpa] at h
        simp [List.take_succ_cons, listPosition, hpa, ← h]
      · have hpa' : p a = false := by simpa using hpa
        simp [listPosition, hpa'] at h
        obtain ⟨k', hk', rfl⟩ := h
        have hmk : listPosition p (List.take m rest) = some k' := ih k' m hk' (by omega)
        simp [List.take_succ_cons, listPosition, hpa', hmk]

theorem listPosition_eq_some_iff {α : Type} (p : α → Bool) :
    ∀ (l : List α) (k : Nat),
      listPosition p l = some k ↔
        ∃ a, l[k]? = some a ∧ p a = true ∧
          ∀ j, j < k → ∃ b, l[j]? = some b ∧ p b = false := by
  intro l
  induction l with
  | nil => intro k; simp [listPosition]
  | cons a rest ih =>
    intro k
    by_cases hpa : p a = true
    · constructor
      · intro h
        simp [listPosition, hpa] at h
        refine ⟨a, by simp [← h], hpa, ?_⟩
        intro j hj
        omega
      · rintro ⟨b, hb, hpb, hall⟩
        cases k with
        | zero => simp [listPosition, hpa]
        | succ m =>
          obtain ⟨c, hc, hpc⟩ := hall 0 (Nat.succ_pos m)
          simp at hc
          rw [← hc, hpa] at hpc
          cases hpc
    · have hpa' : p a = false := by simpa using hpa
      constructor
      · intro h
        simp [listPosition, hpa'] at h
        obtain ⟨k', hk', rfl⟩ := h
        obtain ⟨b, hb, hpb, hall⟩ := (ih k').mp hk'
        refine ⟨b, by simpa using hb, hpb, ?_⟩
        intro j hj
        cases j with
        | zero => exact ⟨a, by simp, hpa'⟩
        | succ j' =>
          obtain ⟨c, hc, hpc⟩ := hall j' (by omega)
          exact ⟨c, by simpa using hc, hpc⟩
      · rintro ⟨b, hb, hpb, hall⟩
        cases k with
        | zero =>
          simp at hb
          rw [← hb, hpa'] at hpb
          cases hpb
        | succ m =>
          have hrest : listPosition p rest = some m := by
            apply (ih m).mpr
            refine ⟨b, by simpa using hb, hpb, ?_⟩
            intro j hj
            obtain ⟨c, hc, hpc⟩ := hall (j + 1) (by omega)
            exact ⟨c, by simpa using hc, hpc⟩
          simp [listPosition, hpa', hrest]

theorem listPosition_eq_none_iff {α : Type} (p : α → Bool) :
    ∀ l : List α, listPosition p l = none ↔ ∀ a ∈ l, p a = false := by
  intro l
  induction l with
  | nil => simp [listPosition]
  | cons a rest ih =>
    by_cases hpa : p a = true
    · simp [listPosition, hpa]
    · have hpa' : p a = false := by simpa using hpa
      simp [listPosition, hpa', ih]

/-! Loop invariants for the three execution modes. -/

theorem executeLoop_all_ok {Ix : Type} (engine : Engine Ix) (snap : List (Address × Account)) :
    ∀ (ixs : List Ix) (index : Nat) (acc : List InstructionResult) (cu et : Nat)
      (store : InMemoryAccountStore),
      (∀ r ∈ chainResults engine ixs store, r.program_result.is_ok = true) →
      executeLoop engine snap ixs index acc cu et store =
        some (Except.ok
          ⟨acc ++ chainResults engine ixs store,
           List.foldl u64add cu
             ((chainResults engine ixs store).map (fun r => r.compute_units_consumed)),
           List.foldl u64add et
             ((chainResults engine ixs store).map (fun r => r.execution_time))⟩,
          chainStore engine ixs store) := by
  intro ixs
  induction ixs with
  | nil => intro index acc cu et store _; simp [executeLoop, chainResults, chainStore]
  | cons ix rest ih =>
    intro index acc cu et store hok
    have hhead : (engine ix store).1.program_result.is_ok = true := by
      apply hok
      simp [chainResults]
    have herr : (engine ix store).1.program_result.is_err = false := by
      simp [ProgramResult.is_err, hhead]
    have htail := ih (index + 1) (acc ++ [(engine ix store).1])
      (u64add cu (engine ix store).1.compute_units_consumed)
      (u64add et (engine ix store).1.execution_time)
      (engine ix store).2
      (fun r hr => hok r (by simp [chainResults]; right; exact hr))
    simp [executeLoop, herr, chainResults, chainStore, htail]

theorem executeLoop_first_err {Ix : Type} (engine : Engine Ix)
    (hraw : EngineRawConsistent engine) (snap : List (Address × Account)) :
    ∀ (ixs : List Ix) (k : Nat) (index : Nat) (acc : List InstructionResult) (cu et : Nat)
      (store : InMemoryAccountStore),
      listPosition (fun r => r.program_result.is_err) (chainResults engine ixs store) = some k →
      ∃ e r, (chainResults engine ixs store)[k]? = some r ∧ r.raw_result = Except.error e ∧
        executeLoop engine snap ixs index acc cu et store =
          some (Except.error (MolluskHelperError.TransactionFailed (index + k) e),
                InMemoryAccountStore.mk snap) := by
  intro ixs
  induction ixs with
  | nil => intro k index acc cu et store hk; simp [chainResults, listPosition] at hk
  | cons ix rest ih =>
    intro k index acc cu et store hk
    by_cases herr : (engine ix store).1.program_result.is_err = true
    · simp [chainResults, listPosition, herr] at hk
      obtain ⟨e, hrawe⟩ := hraw ix store herr
      refine ⟨e, (engine ix store).1, by simp [chainResults, ← hk], hrawe, ?_⟩
      simp [executeLoop, herr, hrawe, InMemoryAccountStore.restore, ← hk]
    · have herr' : (engine ix store).1.program_result.is_err = false := by
        simpa using herr
      simp [chainResults, listPosition, herr'] at hk
      obtain ⟨k', hk', rfl⟩ := hk
      obtain ⟨e, r, h1, h2, h3⟩ := ih k' (index + 1) (acc ++ [(engine ix store).1])
        (u64add cu (engine ix store).1.compute_units_consumed)
        (u64add et (engine ix store).1.execution_time)
        (engine ix store).2 hk'
      refine ⟨e, r, by simp [chainResults, h1], h2, ?_⟩
      have harith : index + 1 + k' = index + (k' + 1) := by omega
      simp [executeLoop, herr', h3, harith]

theorem executeLoop_total {Ix : Type} (engine : Engine Ix)
    (hraw : EngineRawConsistent engine) (snap : List (Address × Account)) :
    ∀ (ixs : List Ix) (index : Nat) (acc : List InstructionResult) (cu et : Nat)
      (store : InMemoryAccountStore),
      ∃ out, executeLoop engine snap ixs index acc cu et store = some out ∧
        ∀ err store1, out = (Except.error err, store1) →
          ∃ j e, err = MolluskHelperError.TransactionFailed j e := by
  intro ixs
  induction ixs with
  | nil =>
    intro index acc cu et store
    refine ⟨(Except.ok ⟨acc, cu, et⟩, store), by simp [executeLoop], ?_⟩
    intro err store1 h
    simp at h
  | cons ix rest ih =>
    intro index acc cu et store
    by_cases herr : (engine ix store).1.program_result.is_err = true
    · obtain ⟨e, hrawe⟩ := hraw ix store herr
      refine ⟨(Except.error (MolluskHelperError.TransactionFailed index e),
               ((engine ix store).2).restore snap), by simp [executeLoop, herr, hrawe], ?_⟩
      intro err store1 h
      simp at h
      exact ⟨index, e, h.1.symm⟩
    · have herr' : (engine ix store).1.program_result.is_err = false := by
        simpa using herr
      obtain ⟨out, hout, hshape⟩ := ih (index + 1) (acc ++ [(engine ix store).1])
        (u64add cu (engine ix store).1.compute_units_consumed)
        (u64add et (engine ix store).1.execution_time)
        (engine ix store).2
      exact ⟨out, by simp [executeLoop, herr', hout], hshape⟩

theorem allowFailuresLoop_spec {Ix : Type} (engine : Engine Ix) :
    ∀ (ixs : List Ix) (acc : List InstructionResult) (cu et : Nat) (anyFailed : Bool)
      (store : InMemoryAccountStore),
      allowFailuresLoop engine ixs acc cu et anyFailed store =
        (acc ++ chainResults engine ixs store,
         List.foldl u64add cu
           ((chainResults engine ixs store).map (fun r => r.compute_units_consumed)),
         List.foldl u64add et
           ((chainResults engine ixs store).map (fun r => r.execution_time)),
         anyFailed || (chainResults engine ixs store).any (fun r => r.program_result.is_err),
         chainStore engine ixs store) := by
  intro ixs
  induction ixs with
  | nil => intro acc cu et anyFailed store; simp [allowFailuresLoop, chainResults, chainStore]
  | cons ix rest ih =>
    intro acc cu et anyFailed store
    simp [allowFailuresLoop, chainResults, chainStore, ih, Bool.or_assoc]

theorem dryRunLoop_spec {Ix : Type} (engine : Engine Ix) :
    ∀ (ixs : List Ix) (acc : List InstructionResult) (cu et : Nat)
      (store : InMemoryAccountStore),
      (dryRunLoop engine ixs acc cu et store).1 =
        acc ++ takeThroughFirstFailure (chainResults engine ixs store) := by
  intro ixs
  induction ixs with
  | nil => intro acc cu et store; simp [dryRunLoop, chainResults, takeThroughFirstFailure]
  | cons ix rest ih =>
    intro acc cu et store
    by_cases herr : (engine ix store).1.program_result.is_err = true
    · simp [dryRunLoop, chainResults, takeThroughFirstFailure, herr]
    · have herr' : (engine ix store).1.program_result.is_err = false := by
        simpa using herr
      simp [dryRunLoop, chainResults, takeThroughFirstFailure, herr', ih]

/-! Claim theorems. -/

/-- C5: For the empty instruction list, each of the three execution modes
returns a result with zero instruction-result entries and both metric totals
equal to zero, and the store is unchanged. -/
theorem empty_instruction_list_spec {Ix : Type} (engine : Engine Ix)
    (store : InMemoryAccountStore) :
    execute engine [] store = some (Except.ok ⟨[], 0, 0⟩, store)
    ∧ execute_allow_failures engine [] store = (⟨[], 0, 0⟩, store)
    ∧ dry_run engine [] store = (⟨[], 0, 0⟩, store) :=
  ⟨rfl, rfl, rfl⟩

/-- C6: Restoring a snapshot makes the store's mapping exactly the mapping
at capture time (accounts added after the capture are removed), and
`restore(snapshot())` performed immediately is a no-op. -/
theorem snapshot_restore_spec :
    (∀ s : InMemoryAccountStore, s.restore s.snapshot = s)
    ∧ (∀ s sLive : InMemoryAccountStore, sLive.restore s.snapshot = s)
    ∧ (∀ (s sLive : InMemoryAccountStore) (a : Address),
        (sLive.restore s.snapshot).get_account a = s.get_account a) :=
  ⟨fun _ => rfl, fun _ _ => rfl, fun _ _ _ => rfl⟩

/-- C9: `get_balance` is the lamports projection of `get_account`, and the
absence of a key yields `none` from both, never an error (every store
operation is a total function in this model). -/
theorem get_balance_projection_spec :
    (∀ (s : InMemoryAccountStore) (a : Address),
        s.get_balance a = (s.get_account a).map (fun acct => acct.lamports))
    ∧ (∀ (s : InMemoryAccountStore) (a : Address),
        s.accounts.lookup a = none → s.get_account a = none ∧ s.get_balance a = none) := by
  constructor
  · intro s a
    rfl
  · intro s a h
    exact ⟨h, by simp [InMemoryAccountStore.get_balance, h]⟩

/-- Witness for C9 at a concrete store and an absent address. -/
theorem get_balance_projection_witness :
    wStore.accounts.lookup 0 = none
    ∧ wStore.get_account 0 = none ∧ wStore.get_balance 0 = none :=
  ⟨by decide, get_balance_projection_spec.2 wStore 0 (by decide)⟩

/-- C7: For every `TransactionResult`, `is_success` is the conjunction of the
per-result success flags (true on the empty sequence), `failed_at` is the
zero-based index of the first non-successful result (`none` if all
succeeded), and `last_result` is the last element (`none` if empty). -/
theorem transaction_result_aggregator_spec :
    (∀ t : TransactionResult,
        t.is_success = true ↔ ∀ r ∈ t.instruction_results, r.program_result.is_ok = true)
    ∧ (∀ cu et : Nat, (TransactionResult.mk [] cu et).is_success = true)
    ∧ (∀ (t : TransactionResult) (k : Nat),
        t.failed_at = some k ↔
          ∃ r, t.instruction_results[k]? = some r ∧ r.program_result.is_ok = false ∧
            ∀ j, j < k → ∃ r2, t.instruction_results[j]? = some r2 ∧
              r2.program_result.is_ok = true)
    ∧ (∀ t : TransactionResult,
        t.failed_at = none ↔ ∀ r ∈ t.instruction_results, r.program_result.is_ok = true)
    ∧ (∀ (t : TransactionResult) (r : InstructionResult),
        t.last_result = some r ↔ ∃ l, t.instruction_results = l ++ [r])
    ∧ (∀ t : TransactionResult, t.last_result = none ↔ t.instruction_results = []) := by
  refine ⟨?_, ?_, ?_, ?_, ?_, ?_⟩
  · intro t
    simp [TransactionResult.is_success, List.all_eq_true]
  · intro cu et
    simp [TransactionResult.is_success]
  · intro t k
    rw [TransactionResult.failed_at, listPosition_eq_some_iff]
    constructor
    · rintro ⟨r, h1, h2, h3⟩
      refine ⟨r, h1, by simpa [ProgramResult.is_err] using h2, ?_⟩
      intro j hj
      obtain ⟨r2, hr2, hp2⟩ := h3 j hj
      exact ⟨r2, hr2, by simpa [ProgramResult.is_err] using hp2⟩
    · rintro ⟨r, h1, h2, h3⟩
      refine ⟨r, h1, by simpa [ProgramResult.is_err] using h2, ?_⟩
      intro j hj
      obtain ⟨r2, hr2, hp2⟩ := h3 j hj
      exact ⟨r2, hr2, by simpa [ProgramResult.is_err] using hp2⟩
  · intro t
    rw [TransactionResult.failed_at, listPosition_eq_none_iff]
    constructor
    · intro h r hr
      simpa [ProgramResult.is_err] using h r hr
    · intro h r hr
      simpa [ProgramResult.is_err] using h r hr
  · intro t r
    simp only [TransactionResult.last_result]
    exact List.getLast?_eq_some_iff
  · intro t
    simp only [TransactionResult.last_result]
    exact List.getLast?_eq_none_iff

/-- Witness for C7: the first-failure index of a concrete two-entry result. -/
theorem transaction_result_aggregator_witness :
    (TransactionResult.mk [wOkRes, wErrRes] 0 0).failed_at = some 1 :=
  (transaction_result_aggregator_spec.2.2.1 (TransactionResult.mk [wOkRes, wErrRes] 0 0) 1).mpr
    ⟨wErrRes, by decide, by decide, by
      intro j hj
      have hj0 : j = 0 := by omega
      subst hj0
      exact ⟨wOkRes, by decide, by decide⟩⟩

/-- C8: `process_instruction` classifies a success as `Ok`, a typed program
failure as the `ProgramError` variant, and an unclassified engine error as
the distinct `InstructionFailed` variant — no raw engine fault propagates —
while both failure kinds count as failed (`is_err`) for the executors'
rollback decision. -/
theorem error_classification_spec {Ix : Type} (engine : Engine Ix) (ix : Ix)
    (store : InMemoryAccountStore) :
    ((engine ix store).1.program_result = ProgramResult.Success →
      (process_instruction engine ix store).1 = Except.ok (engine ix store).1)
    ∧ (∀ e, (engine ix store).1.program_result = ProgramResult.Failure e →
        (process_instruction engine ix store).1 =
          Except.error (MolluskHelperError.ProgramError e))
    ∧ (∀ e, (engine ix store).1.program_result = ProgramResult.UnknownError e →
        (process_instruction engine ix store).1 =
          Except.error (MolluskHelperError.InstructionFailed e))
    ∧ (∀ e, (ProgramResult.Failure e).is_err = true)
    ∧ (∀ e, (ProgramResult.UnknownError e).is_err = true) := by
  refine ⟨?_, ?_, ?_, ?_, ?_⟩
  · intro h
    simp [process_instruction, h]
  · intro e h
    simp [process_instruction, h]
  · intro e h
    simp [process_instruction, h]
  · intro e
    rfl
  · intro e
    rfl

/-- Witness for C8: a concrete unclassified engine error is reported as
`InstructionFailed` and counts as failed. -/
theorem error_classification_witness :
    (process_instruction wUnkEngine 0 wStore).1 =
      Except.error (MolluskHelperError.InstructionFailed ⟨6⟩)
    ∧ (ProgramResult.UnknownError ⟨6⟩).is_err = true :=
  ⟨(error_classification_spec wUnkEngine 0 wStore).2.2.1 ⟨6⟩ rfl,
   (error_classification_spec wUnkEngine 0 wStore).2.2.2.2 ⟨6⟩⟩

/-- C1: For every non-empty instruction list in which every instruction
succeeds, `execute` returns `Ok` with one result per instruction in order
and the summed metrics, the result's success predicate is true, and the
store is left with all mutations applied. -/
theorem execute_all_success_spec {Ix : Type} (engine : Engine Ix) (ixs : List Ix)
    (store : InMemoryAccountStore) (hne : ixs ≠ [])
    (hok : ∀ r ∈ chainResults engine ixs store, r.program_result.is_ok = true) :
    execute engine ixs store =
      some (Except.ok
        ⟨chainResults engine ixs store,
         u64sum ((chainResults engine ixs store).map (fun r => r.compute_units_consumed)),
         u64sum ((chainResults engine ixs store).map (fun r => r.execution_time))⟩,
        chainStore engine ixs store)
    ∧ TransactionResult.is_success
        ⟨chainResults engine ixs store,
         u64sum ((chainResults engine ixs store).map (fun r => r.compute_units_consumed)),
         u64sum ((chainResults engine ixs store).map (fun r => r.execution_time))⟩ = true := by
  constructor
  · have hemp : ixs.isEmpty = false := by simpa using hne
    simp only [execute, hemp, Bool.false_eq_true, if_false]
    simpa [u64sum] using executeLoop_all_ok engine store.snapshot ixs 0 [] 0 0 store hok
  · simp only [TransactionResult.is_success, List.all_eq_true]
    exact hok

/-- Witness for C1: two successful store-mutating instructions. -/
theorem execute_all_success_witness :
    execute wMutEngine [0, 1] wStore =
      some (Except.ok
        ⟨chainResults wMutEngine [0, 1] wStore,
         u64sum ((chainResults wMutEngine [0, 1] wStore).map (fun r => r.compute_units_consumed)),
         u64sum ((chainResults wMutEngine [0, 1] wStore).map (fun r => r.execution_time))⟩,
        chainStore wMutEngine [0, 1] wStore)
    ∧ TransactionResult.is_success
        ⟨chainResults wMutEngine [0, 1] wStore,
         u64sum ((chainResults wMutEngine [0, 1] wStore).map (fun r => r.compute_units_consumed)),
         u64sum ((chainResults wMutEngine [0, 1] wStore).map (fun r => r.execution_time))⟩ = true :=
  execute_all_success_spec wMutEngine [0, 1] wStore (by decide) (by decide)

/-- C2: For every instruction list whose first failing instruction (under the
adapter invariant) sits at zero-based position `k`, `execute` restores the
pre-transaction store, returns `TransactionFailed` carrying `k` and the raw
failure detail of the failing instruction, and its outcome is already
determined by the first `k + 1` instructions. -/
theorem execute_first_failure_spec {Ix : Type} (engine : Engine Ix) (ixs : List Ix)
    (store : InMemoryAccountStore) (k : Nat)
    (hraw : EngineRawConsistent engine)
    (hk : listPosition (fun r => r.program_result.is_err)
            (chainResults engine ixs store) = some k) :
    ∃ e r, (chainResults engine ixs store)[k]? = some r ∧ r.raw_result = Except.error e ∧
      execute engine ixs store =
        some (Except.error (MolluskHelperError.TransactionFailed k e), store) ∧
      execute engine (List.take (k + 1) ixs) store = execute engine ixs store := by
  have hlen : k < ixs.length := by
    have hl := listPosition_lt_length _ _ _ hk
    simpa [chainResults_length] using hl
  have hne : ixs ≠ [] := by
    intro h
    subst h
    simp at hlen
  have hemp : ixs.isEmpty = false := by simpa using hne
  have hempT : (List.take (k + 1) ixs).isEmpty = false := by
    cases ixs with
    | nil => cases hne rfl
    | cons x xs => simp [List.take_succ_cons]
  obtain ⟨e, r, h1, h2, h3⟩ :=
    executeLoop_first_err engine hraw store.snapshot ixs k 0 [] 0 0 store hk
  have htke : chainResults engine (List.take (k + 1) ixs) store =
      List.take (k + 1) (chainResults engine ixs store) :=
    chainResults_take engine (k + 1) ixs store
  have hkt : listPosition (fun r => r.program_result.is_err)
      (chainResults engine (List.take (k + 1) ixs) store) = some k := by
    rw [htke]
    exact listPosition_take _ _ _ _ hk (by omega)
  obtain ⟨e2, r2, h1t, h2t, h3t⟩ :=
    executeLoop_first_err engine hraw store.snapshot (List.take (k + 1) ixs) k 0 [] 0 0 store hkt
  have hr2 : r = r2 := by
    rw [htke, List.getElem?_take_of_lt (by omega), h1] at h1t
    exact Option.some.inj h1t
  have he2 : e = e2 := by
    rw [← hr2, h2] at h2t
    exact Except.error.inj h2t
  subst hr2
  subst he2
  refine ⟨e, r, h1, h2, ?_, ?_⟩
  · simp only [execute, hemp, Bool.false_eq_true, if_false]
    rw [h3]
    simp [InMemoryAccountStore.snapshot]
  · simp only [execute, hemp, hempT, Bool.false_eq_true, if_false]
    rw [h3, h3t]

/-- Witness for C2: a success followed by a typed failure, first failure at
index 1, with the store rolled back. -/
theorem execute_first_failure_witness :
    ∃ e r, (chainResults wMixEngine [0, 1] wStore)[1]? = some r ∧
      r.raw_result = Except.error e ∧
      execute wMixEngine [0, 1] wStore =
        some (Except.error (MolluskHelperError.TransactionFailed 1 e), wStore) ∧
      execute wMixEngine (List.take 2 [0, 1]) wStore = execute wMixEngine [0, 1] wStore :=
  execute_first_failure_spec wMixEngine [0, 1] wStore 1
    (by
      intro ix s h
      by_cases hix : ix = 0
      · simp [wMixEngine, hix, wOkRes, ProgramResult.is_err, ProgramResult.is_ok] at h
      · refine ⟨⟨9⟩, ?_⟩
        simp [wMixEngine, hix, wErrRes])
    (by decide)

/-- C3: `execute_allow_failures` runs every instruction in order without
short-circuiting, returns one entry per instruction with summed metrics, and
the store keeps all mutations iff no instruction failed (otherwise it is
restored to the pre-transaction snapshot). -/
theorem execute_allow_failures_spec {Ix : Type} (engine : Engine Ix) (ixs : List Ix)
    (store : InMemoryAccountStore) :
    execute_allow_failures engine ixs store =
      (⟨chainResults engine ixs store,
        u64sum ((chainResults engine ixs store).map (fun r => r.compute_units_consumed)),
        u64sum ((chainResults engine ixs store).map (fun r => r.execution_time))⟩,
       if (chainResults engine ixs store).any (fun r => r.program_result.is_err) then store
       else chainStore engine ixs store)
    ∧ (chainResults engine ixs store).length = ixs.length := by
  refine ⟨?_, chainResults_length engine ixs store⟩
  cases ixs with
  | nil => simp [execute_allow_failures, chainResults, chainStore, u64sum]
  | cons ix rest =>
    simp only [execute_allow_failures, List.isEmpty_cons, Bool.false_eq_true, if_false,
      allowFailuresLoop_spec, List.nil_append, Bool.false_or, u64sum,
      InMemoryAccountStore.restore, InMemoryAccountStore.snapshot]

/-- C4: `dry_run` always leaves the store byte-identical to its
pre-transaction snapshot, and returns the results of the instructions run in
order up to and including the first failure. -/
theorem dry_run_spec {Ix : Type} (engine : Engine Ix) (ixs : List Ix)
    (store : InMemoryAccountStore) :
    (dry_run engine ixs store).2 = store
    ∧ (dry_run engine ixs store).1.instruction_results =
        takeThroughFirstFailure (chainResults engine ixs store) := by
  cases ixs with
  | nil => exact ⟨rfl, rfl⟩
  | cons ix rest =>
    constructor
    · simp [dry_run, InMemoryAccountStore.restore, InMemoryAccountStore.snapshot]
    · simp [dry_run, dryRunLoop_spec]

/-- C10: Under the adapter invariant, `execute` is total: it always returns
a value, and any error it returns is a `TransactionFailed` (the
`unreachable!()` branch — modelled as `none` — is never taken). -/
theorem execute_total_spec {Ix : Type} (engine : Engine Ix)
    (hraw : EngineRawConsistent engine) (ixs : List Ix) (store : InMemoryAccountStore) :
    ∃ out, execute engine ixs store = some out ∧
      ∀ err store1, out = (Except.error err, store1) →
        ∃ j e, err = MolluskHelperError.TransactionFailed j e := by
  cases ixs with
  | nil =>
    refine ⟨(Except.ok ⟨[], 0, 0⟩, store), rfl, ?_⟩
    intro err store1 h
    simp at h
  | cons ix rest =>
    obtain ⟨out, hout, hshape⟩ :=
      executeLoop_total engine hraw store.snapshot (ix :: rest) 0 [] 0 0 store
    exact ⟨out, by simp [execute, hout], hshape⟩

/-- Witness for C10: a concrete always-failing engine still yields `some`
outcome, shaped as `TransactionFailed`. -/
theorem execute_total_witness :
    ∃ out, execute wFailEngine [0] wStore = some out ∧
      ∀ err store1, out = (Except.error err, store1) →
        ∃ j e, err = MolluskHelperError.TransactionFailed j e :=
  execute_total_spec wFailEngine (by intro ix s _; exact ⟨⟨9⟩, rfl⟩) [0] wStore
